import Mathlib

set_option maxHeartbeats 1000000

/-! Verification of the LinkWave chatbot's request-gating and
response-normalization pipeline: text classifiers, response normalizers,
the request validator, the `POST /api/chat` gating branches and error
handler, the client conversation store, and the client markdown renderer.
Strings are modelled through their character lists; JavaScript regular
expressions are translated into explicit character-level parsers. -/

/-- Whitespace as JavaScript's `\s` class and `String.prototype.trim` see it. -/
def isWsChar (c : Char) : Bool :=
  [' ', '\t', '\n', '\r', '\x0b', '\x0c', '\u00A0', '\u1680',
   '\u2028', '\u2029', '\u202F', '\u205F', '\u3000', '\uFEFF'].contains c
  || decide (0x2000 ≤ c.toNat ∧ c.toNat ≤ 0x200A)

/-- JavaScript `\w` word characters, for the `\b` boundary. -/
def wordCharJS (c : Char) : Bool := c.isAlpha || c.isDigit || c == '_'

/-- `Array.prototype.slice(-n)`: the last `n` elements (all of them if fewer). -/
def sliceLast (n : Nat) (l : List α) : List α := l.drop (l.length - n)

/-- `String.prototype.toLowerCase`, character by character. -/
def lowerL (l : List Char) : List Char := l.map Char.toLower

/-- `String.prototype.trim`: drop leading and trailing whitespace. -/
def trimL (l : List Char) : List Char :=
  ((l.dropWhile isWsChar).reverse.dropWhile isWsChar).reverse

/-- `String.prototype.includes`-style substring test: `isSub sub hay` is true
iff `sub` occurs contiguously inside `hay`. -/
def isSub (sub hay : List Char) : Bool :=
  match hay with
  | [] => sub.isEmpty
  | _ :: t => sub.isPrefixOf hay || isSub sub t

/-- `hay.includes(sub)` as the server uses it on lowercased text. -/
def jsIncludes (hay sub : List Char) : Bool := isSub sub hay

/-- One entry of a conversation history: `{ role, content }`. -/
structure ChatMsg where
  role : String
  content : String
deriving DecidableEq, Repr

/-- The server's fixed consultation-keyword table. -/
def CONSULTATION_KEYWORDS : List String :=
  ["consultation", "consult", "meeting", "discuss", "talk", "speak",
   "quote", "pricing", "cost", "price", "estimate", "project",
   "book", "schedule", "appointment", "contact", "reach out",
   "interested", "learn more", "details"]

/-- The server's fixed domain-keyword table. -/
def DOMAIN_KEYWORDS : List String :=
  ["das", "distributed antenna", "in-building", "signal", "coverage",
   "carrier", "cellular", "5g", "lte", "public safety", "radio",
   "wifi", "wireless", "linkwave", "network", "installation",
   "design", "testing", "maintenance", "deployment", "building",
   "tunnel", "transit", "hospital", "stadium", "campus", "office",
   "rf", "antenna", "website", "services", "careers", "projects",
   "team", "faq", "learn", "company"]

/-- "some keyword of the table occurs in this (already lowercased) text". -/
def containsAnyKeyword (kws : List String) (s : List Char) : Bool :=
  kws.any (fun k => jsIncludes s k.data)

/-- `detectConsultationIntent(message, history)` from the server: the lowercased
message contains a consultation keyword, or some user-role entry among the last
3 entries of the history (`history.slice(-3).filter(role === 'user')`) does. -/
def detectConsultationIntent (m : String) (h : List ChatMsg) : Bool :=
  let lower := lowerL m.data
  if containsAnyKeyword CONSULTATION_KEYWORDS lower then true
  else
    ((sliceLast 3 h).filter (fun x => x.role == "user")).any
      (fun x => containsAnyKeyword CONSULTATION_KEYWORDS (lowerL x.content.data))

/-- `hasDomainContext(history)` from the server. -/
def hasDomainContext (h : List ChatMsg) : Bool :=
  ((sliceLast 3 h).filter (fun x => x.role == "user")).any
    (fun x => containsAnyKeyword DOMAIN_KEYWORDS (lowerL x.content.data))

/-- Prefix test plus a JavaScript `\b` boundary right after the prefix. -/
def boundaryAfter (w : String) (l : List Char) : Bool :=
  w.data.isPrefixOf l &&
    (match l.drop w.length with
     | [] => true
     | c :: _ => !wordCharJS c)

/-- The `good\s*(morning|afternoon|evening)\b` alternative of the greeting
pattern, on an already lowercased string. -/
def goodGreetingStart (l : List Char) : Bool :=
  if ("good".data).isPrefixOf l then
    let r := (l.drop 4).dropWhile isWsChar
    boundaryAfter "morning" r || boundaryAfter "afternoon" r || boundaryAfter "evening" r
  else false

/-- `/^(hi|hello|hey|good\s*(morning|afternoon|evening))\b/i` on a lowercased
string. -/
def greetingStart (l : List Char) : Bool :=
  boundaryAfter "hi" l || boundaryAfter "hello" l || boundaryAfter "hey" l ||
  goodGreetingStart l

/-- `/^(list|summarize|summary|bullet|outline)/i` on a lowercased string. -/
def metaStart (l : List Char) : Bool :=
  ("list".data).isPrefixOf l || ("summarize".data).isPrefixOf l ||
  ("summary".data).isPrefixOf l || ("bullet".data).isPrefixOf l ||
  ("outline".data).isPrefixOf l

/-- `isOffTopic(message, history)` from the server. -/
def isOffTopic (m : String) (h : List ChatMsg) : Bool :=
  let lower := trimL (lowerL m.data)
  if greetingStart lower then false
  else if metaStart lower && hasDomainContext h then false
  else if containsAnyKeyword DOMAIN_KEYWORDS lower then false
  else !(hasDomainContext h)

/-- `isRepeated(message, history)` from the server: at least 3 user-role
messages overall, and the last 3 of them all normalize (lowercase + trim) to
the normalized current message. -/
def isRepeated (m : String) (h : List ChatMsg) : Bool :=
  let norm := trimL (lowerL m.data)
  let recent := sliceLast 3 (h.filter (fun x => x.role == "user"))
  if recent.length < 3 then false
  else recent.all (fun x => trimL (lowerL x.content.data) == norm)

/-- The claim C4 statement taken literally: a keyword in the current message or
in one of the last 3 user-role messages of the history
(`history.filter(role === 'user').slice(-3)`). -/
def detectClaimStated (m : String) (h : List ChatMsg) : Bool :=
  containsAnyKeyword CONSULTATION_KEYWORDS (lowerL m.data) ||
  (sliceLast 3 (h.filter (fun x => x.role == "user"))).any
    (fun x => containsAnyKeyword CONSULTATION_KEYWORDS (lowerL x.content.data))

/-- `text.split('\n')` on the character level. -/
def splitOnNl : List Char → List (List Char)
  | [] => [[]]
  | c :: r =>
    if c = '\n' then [] :: splitOnNl r
    else
      match splitOnNl r with
      | [] => [[c]]
      | h :: t => (c :: h) :: t

/-- `lines.join('\n')` on the character level. -/
def joinNl : List (List Char) → List Char
  | [] => []
  | [l] => l
  | l :: r => l ++ '\n' :: joinNl r

/-- Sentence-ending punctuation of the `fixSpacing` pattern `[.!?]`. -/
def sentencePunct (c : Char) : Bool := c == '.' || c == '!' || c == '?'

/-- `fixSpacing`'s global replace `/([.!?])([A-Za-z])/g -> '$1 $2'`. -/
def fixSpacingL : List Char → List Char
  | [] => []
  | [c] => [c]
  | p :: a :: rest =>
    if sentencePunct p && a.isAlpha then p :: ' ' :: a :: fixSpacingL rest
    else p :: fixSpacingL (a :: rest)

/-- `fixSpacing(text)` from the server. -/
def fixSpacing (t : String) : String := String.mk (fixSpacingL t.data)

/-- The optional `(\*\*)?` bold marker of the ordered-list-item pattern. -/
def dropBB (l : List Char) : List Char :=
  match l with
  | '*' :: '*' :: r => r
  | _ => l

/-- `line.trim() === ''`. -/
def isBlankL (l : List Char) : Bool := (trimL l).isEmpty

/-- The server's ordered-list-item pattern
`/^(\s*)(\*\*)?(\d+)([.\)])(\*\*)?\s+(.*)$/`: on success, the captured indent
and the content after the whitespace run. -/
def parseOrd (l : List Char) : Option (List Char × List Char) :=
  let ind := l.takeWhile isWsChar
  let r1 := l.dropWhile isWsChar
  let r2 := dropBB r1
  let ds := r2.takeWhile Char.isDigit
  let r3 := r2.dropWhile Char.isDigit
  if ds.isEmpty then none
  else
    match r3 with
    | c :: r4 =>
      if c = '.' ∨ c = ')' then
        let r5 := dropBB r4
        let w := r5.takeWhile isWsChar
        if w.isEmpty then none else some (ind, r5.dropWhile isWsChar)
      else none
    | [] => none

/-- The replacement `${indent}${num}. ${content}` of `fixNumberedLists`. -/
def numLine (ind : List Char) (n : Nat) (content : List Char) : List Char :=
  ind ++ (Nat.repr n).data ++ '.' :: ' ' :: content

/-- One iteration of the `fixNumberedLists` loop: the running counter and the
rewritten lines so far. -/
def fixNumStep (st : Nat × List (List Char)) (line : List Char) :
    Nat × List (List Char) :=
  match parseOrd line with
  | some (ind, content) => (st.1 + 1, st.2 ++ [numLine ind st.1 content])
  | none => if isBlankL line then (1, st.2 ++ [line]) else (st.1, st.2 ++ [line])

/-- `fixNumberedLists(text)` from the server. -/
def fixNumberedLists (t : String) : String :=
  String.mk (joinNl ((splitOnNl t.data).foldl fixNumStep (1, [])).2)

/-- Claim C6's reading of `fixNumberedLists` as structural recursion: matched
lines are renumbered sequentially from the running counter, a blank line
resets the counter to 1, other lines pass through. -/
def renumClaim (n : Nat) : List (List Char) → List (List Char)
  | [] => []
  | line :: rest =>
    if isBlankL line then line :: renumClaim 1 rest
    else
      match parseOrd line with
      | some (ind, content) => numLine ind n content :: renumClaim (n + 1) rest
      | none => line :: renumClaim n rest

/-- The list-item test `/^\s*(\d+[.\)]|[-*])\s+/` of `limitList`. -/
def isListItemLine (l : List Char) : Bool :=
  let r1 := l.dropWhile isWsChar
  let ds := r1.takeWhile Char.isDigit
  let r2 := r1.dropWhile Char.isDigit
  if !ds.isEmpty then
    match r2 with
    | c :: d :: _ => (c == '.' || c == ')') && isWsChar d
    | _ => false
  else
    match r1 with
    | c :: d :: _ => (c == '-' || c == '*') && isWsChar d
    | _ => false

/-- One iteration of the `limitList` loop: state `(inList, listCount, kept)`. -/
def limitStep (st : Bool × Nat × List (List Char)) (line : List Char) :
    Bool × Nat × List (List Char) :=
  if isListItemLine line then
    let cnt := (if st.1 then st.2.1 else 0) + 1
    (true, cnt, if cnt ≤ 3 then st.2.2 ++ [line] else st.2.2)
  else
    if isBlankL line && st.1 then (false, 0, st.2.2 ++ [line])
    else (st.1, st.2.1, st.2.2 ++ [line])

/-- `limitList(text)` from the server. -/
def limitList (t : String) : String :=
  String.mk (joinNl ((splitOnNl t.data).foldl limitStep (false, 0, [])).2.2)

/-- Claim C5 as amended: list groups are reset only by a blank line — the
counter carries across non-blank non-list lines — and only the first 3
list-item lines of a group are kept, every other line passing through. -/
def limitClaim (c : Nat) : List (List Char) → List (List Char)
  | [] => []
  | line :: rest =>
    if isListItemLine line then
      (if c + 1 ≤ 3 then [line] else []) ++ limitClaim (c + 1) rest
    else if isBlankL line then line :: limitClaim 0 rest
    else line :: limitClaim c rest

/-- Claim C5 taken literally: a contiguous run of list items ends at any
non-list line (blank or not), and each run keeps its first 3 items. -/
def limitStated (c : Nat) : List (List Char) → List (List Char)
  | [] => []
  | line :: rest =>
    if isListItemLine line then
      (if c + 1 ≤ 3 then [line] else []) ++ limitStated (c + 1) rest
    else line :: limitStated 0 rest

/-- The fixed CTA sentence appended by `appendConsultationCTA`. -/
def CTA_SENTENCE : String :=
  "Please click the \"Book Consultation\" button below to connect with our team."

/-- The phrase set of the `alreadyMentionsButton` case-insensitive test. -/
def BUTTON_PHRASES : List String :=
  ["book consultation", "button below", "click the button", "use the button",
   "press the button", "select the button"]

/-- `alreadyMentionsButton`: one of the fixed phrases occurs, case-insensitively. -/
def mentionsButton (l : List Char) : Bool :=
  BUTTON_PHRASES.any (fun p => jsIncludes (lowerL l) p.data)

/-- The reply used for empty input: `Thanks for your interest. ${cta}`. -/
def thanksCTA : String :=
  String.mk (("Thanks for your interest. ").data ++ CTA_SENTENCE.data)

/-- `appendConsultationCTA(text)` from the server. -/
def appendConsultationCTA (t : String) : String :=
  let base := trimL t.data
  if base.isEmpty then thanksCTA
  else if mentionsButton base then String.mk base
  else String.mk (base ++ '\n' :: '\n' :: CTA_SENTENCE.data)

/-- `sanitizeString(str, maxLength)` from the server: strip null bytes, trim,
hard-truncate. -/
def sanitizeString (s : String) (maxLength : Nat) : String :=
  String.mk ((trimL (s.data.filter (fun c => c != '\x00'))).take maxLength)

/-- The per-entry validity test of `validateConversationHistory`: role is
`user` or `assistant` and the content is a non-empty string of at most 2000
characters. -/
def validMsg (m : ChatMsg) : Bool :=
  (m.role == "user" || m.role == "assistant") &&
  decide (0 < m.content.length) && decide (m.content.length ≤ 2000)

/-- The per-entry rewrite of kept history entries: content sanitized to at
most 250 characters. -/
def sanitizeEntry (m : ChatMsg) : ChatMsg :=
  ⟨m.role, sanitizeString m.content 250⟩

/-- `validateConversationHistory(history)` from the server: cap to the last 10
entries, filter invalid ones, sanitize the kept contents. -/
def validateConversationHistory (h : List ChatMsg) : List ChatMsg :=
  ((sliceLast 10 h).filter validMsg).map sanitizeEntry

/-- The other order claim C7 compares against: filter and sanitize first, then
cap to the last 10. -/
def filterThenCap (h : List ChatMsg) : List ChatMsg :=
  sliceLast 10 ((h.filter validMsg).map sanitizeEntry)

/-- The fixed refusal text of the repeated-question short-circuit. -/
def REPEATED_TEXT : String :=
  "I want to be helpful, but I can't keep repeating the same answer. Could you rephrase or ask a different question about DAS, wireless coverage, or the Linkwave website?"

/-- The fixed redirect text of the off-topic short-circuit. -/
def OFFTOPIC_TEXT : String :=
  "I'm here to help with DAS, wireless coverage, and Linkwave services. If you have a question about those topics or the website, I'd be happy to help."

/-- The JSON body `{ response, consultationIntent }` of a 200 reply. -/
structure ChatReply where
  response : String
  consultationIntent : Bool
deriving DecidableEq, Repr

/-- The gating and post-processing of the `POST /api/chat` handler, for an
already validated `(message, history)` pair. The external completion call is
abstracted by the `completion` text it would return, and the two
consultation-branch rewrites `removeContactInfo` and `fixButtonReferences`
(pure text-to-text regex transforms not examined by any claim) are taken as
parameters `rc` and `fb`. The second component records whether the provider
was invoked. -/
def handleChat (rc fb : String → String) (completion : String)
    (m : String) (h : List ChatMsg) : ChatReply × Bool :=
  if isRepeated m h then ({ response := REPEATED_TEXT, consultationIntent := false }, false)
  else
    let ci := detectConsultationIntent m h
    if !ci && isOffTopic m h then
      ({ response := OFFTOPIC_TEXT, consultationIntent := false }, false)
    else
      let r1 := limitList (fixNumberedLists (fixSpacing completion))
      let r2 := if ci then appendConsultationCTA (fb (rc r1)) else fb r1
      ({ response := r2, consultationIntent := ci }, true)

/-- The `catch` block of the `POST /api/chat` handler: from the caught error's
optional `status` and `message` fields to the HTTP status and the JSON body
`{ error, message }` sent to the client. `error.status || 500` and
`error.message || 'An error occurred'` treat absent, zero or empty values as
falsy. -/
def catchHandler (errStatus : Option Nat) (errMsg : Option String) :
    Nat × String × String :=
  let statusCode := match errStatus with
    | some s => if s = 0 then 500 else s
    | none => 500
  let errorMessage :=
    if statusCode = 500 then "An error occurred. Please try again later."
    else match errMsg with
      | some s => if s = "" then "An error occurred" else s
      | none => "An error occurred"
  (statusCode, "Request failed", errorMessage)

/-- The two `localStorage` slots owned by the chatbot widget: the serialized
history under `linkwave_chatbot_history` and the save-time millisecond epoch
under `linkwave_chatbot_timestamp`. The JSON codec (`JSON.stringify` /
`JSON.parse`, inverse on these role/content records) is abstracted by storing
the typed value. -/
structure StoreState where
  histVal : Option (List ChatMsg)
  tsVal : Option Nat
deriving DecidableEq, Repr

/-- Milliseconds per day, `1000 * 60 * 60 * 24`. -/
def msPerDay : Nat := 1000 * 60 * 60 * 24

/-- `clearHistory()` from the client: remove both keys, empty in-memory log. -/
def clearHistory (_ : StoreState) : StoreState × List ChatMsg :=
  ({ histVal := none, tsVal := none }, [])

/-- `saveHistory()` from the client: write the log and the current time. -/
def saveHistory (_ : StoreState) (h : List ChatMsg) (now : Nat) : StoreState :=
  { histVal := some h, tsVal := some now }

/-- `loadHistory()` from the client: if both keys are present and the age in
days is below 30, restore the stored log; if expired, clear both keys and
start empty; with a key missing, keep the store and start empty. -/
def loadHistory (st : StoreState) (now : Nat) : StoreState × List ChatMsg :=
  match st.histVal, st.tsVal with
  | some h, some t =>
    if (now - t) / msPerDay < 30 then (st, h) else clearHistory st
  | _, _ => (st, [])

/-- One character of `escapeHtml` (a DOM text node serialized back through
`innerHTML`): `&`, `<`, `>` and the no-break space become entities, everything
else passes through. -/
def escChar (c : Char) : List Char :=
  if c = '&' then ("&amp;").data
  else if c = '<' then ("&lt;").data
  else if c = '>' then ("&gt;").data
  else if c = '\u00A0' then ("&nbsp;").data
  else [c]

/-- `escapeHtml(unsafe)` from the client renderer. -/
def escapeHtml (l : List Char) : List Char := (l.map escChar).flatten

/-- Leftmost occurrence of the two-character pattern `**`: the part before it
and the part after it. -/
def findBB : List Char → Option (List Char × List Char)
  | [] => none
  | [_] => none
  | c :: d :: rest =>
    if c = '*' ∧ d = '*' then some ([], rest)
    else (findBB (d :: rest)).map (fun pq => (c :: pq.1, pq.2))

def strongOpen : List Char := ("<strong>").data

def strongClose : List Char := ("</strong>").data

/-- The global lazy replace `/\*\*(.*?)\*\*/g -> '<strong>$1</strong>'`:
pair the leftmost `**` with the nearest following `**`, wrap the span, and
continue after it. The fuel is only a structural-recursion bound: each
replacement consumes at least four characters, so `l.length` steps are never
exhausted. -/
def boldGo : Nat → List Char → List Char
  | 0, l => l
  | fuel + 1, l =>
    match findBB l with
    | none => l
    | some (pre, rest) =>
      match findBB rest with
      | none => l
      | some (mid, tail) =>
        pre ++ strongOpen ++ mid ++ strongClose ++ boldGo fuel tail

/-- The bold rewrite applied by `markdownToHTML` to escaped text. -/
def boldRepl (l : List Char) : List Char := boldGo l.length l

/-- The strings the renderer itself introduces: the four escape entities and
the markup tags. All other output characters come through `escChar`'s
plain-character branch. -/
def SAFE_TOKENS : List (List Char) :=
  [("&amp;").data, ("&lt;").data, ("&gt;").data, ("&nbsp;").data,
   ("<ol>").data, ("</ol>").data, ("<ul>").data, ("</ul>").data,
   ("<li>").data, ("</li>").data, strongOpen, strongClose,
   ("<p>").data, ("</p>").data, ("<br>").data]

/-- Safe markup: a concatenation of renderer-introduced tokens and plain
characters none of which is `&`, `<` or `>`. Any `<`, `>` or `&` in a safe
string therefore lies inside a renderer-introduced tag or escape entity. -/
inductive SafeL : List Char → Prop
  | nil : SafeL []
  | tok {t rest} (ht : t ∈ SAFE_TOKENS) (hr : SafeL rest) : SafeL (t ++ rest)
  | chr {c rest} (h1 : c ≠ '&') (h2 : c ≠ '<') (h3 : c ≠ '>') (hr : SafeL rest) :
      SafeL (c :: rest)

/-- The renderer's numbered-item pattern `/^(\d+)\.\s+(.+)$/` on a trimmed
line; on success, the captured content. When nothing but whitespace follows
the dot, the regex backtracks and captures the final whitespace character
(reachable only for untrimmed input). -/
def mdNumMatch (l : List Char) : Option (List Char) :=
  let ds := l.takeWhile Char.isDigit
  let r1 := l.dropWhile Char.isDigit
  if ds.isEmpty then none
  else
    match r1 with
    | '.' :: r2 =>
      let w := r2.takeWhile isWsChar
      let r3 := r2.dropWhile isWsChar
      if w.isEmpty then none
      else if r3.isEmpty then
        if 2 ≤ w.length then some [w.getLastD ' '] else none
      else some r3
    | _ => none

/-- The leading character class of the renderer's bullet pattern
`/^[-*â€¢]\s+(.+)$/` (the source file stores the bullet as the three
mojibake characters). -/
def mdBulletChar (c : Char) : Bool :=
  c == '-' || c == '*' || c == 'â' || c == '€' || c == '¢'

/-- The renderer's bullet-item pattern on a trimmed line. -/
def mdBulMatch (l : List Char) : Option (List Char) :=
  match l with
  | c :: r =>
    if mdBulletChar c then
      let w := r.takeWhile isWsChar
      let r3 := r.dropWhile isWsChar
      if w.isEmpty then none
      else if r3.isEmpty then
        if 2 ≤ w.length then some [w.getLastD ' '] else none
      else some r3
    else none
  | [] => none

/-- `<li>${itemText}</li>` with the item text escaped and bold-processed. -/
def liWrap (content : List Char) : List Char :=
  ("<li>").data ++ boldRepl (escapeHtml content) ++ ("</li>").data

/-- `<${tag}>${listItems.join('')}</${tag}>` for `ol` (true) or `ul` (false). -/
def listWrap (ordered : Bool) (items : List (List Char)) : List Char :=
  (if ordered then ("<ol>").data else ("<ul>").data) ++ items.flatten ++
  (if ordered then ("</ol>").data else ("</ul>").data)

/-- `closeCurrentList()`: the entries pushed to `result` and the new
`listItems` array. `currentList` becomes null in every case. -/
def flushList (cur : Option Bool) (items : List (List Char)) :
    List (List Char) × List (List Char) :=
  match cur with
  | some b => if items.isEmpty then ([], items) else ([listWrap b items], [])
  | none => ([], items)

/-- The line loop of `markdownToHTML`: state `(currentList, listItems)`, and
the list of `result` entries still to be produced. -/
def mdLoop : Option Bool → List (List Char) → List (List Char) → List (List Char)
  | cur, items, [] => (flushList cur items).1
  | cur, items, line :: rest =>
    match mdNumMatch (trimL line) with
    | some content =>
      if cur = some true then mdLoop (some true) (items ++ [liWrap content]) rest
      else
        (flushList cur items).1 ++
          mdLoop (some true) ((flushList cur items).2 ++ [liWrap content]) rest
    | none =>
      match mdBulMatch (trimL line) with
      | some content =>
        if cur = some false then mdLoop (some false) (items ++ [liWrap content]) rest
        else
          (flushList cur items).1 ++
            mdLoop (some false) ((flushList cur items).2 ++ [liWrap content]) rest
      | none =>
        (flushList cur items).1 ++
          (if (trimL line).isEmpty then [] else [boldRepl (escapeHtml (trimL line))]) ++
          mdLoop none (flushList cur items).2 rest

def OL_TAG : List Char := ("<ol>").data

def UL_TAG : List Char := ("<ul>").data

/-- The spacing pass of the final join: a `<br>` before a text line that
directly follows an entry containing a list, the first entry kept as is. -/
def brGo (prev : List Char) : List (List Char) → List (List Char)
  | [] => []
  | line :: rest =>
    (if (!prev.isEmpty && (jsIncludes prev OL_TAG || jsIncludes prev UL_TAG))
        && (!line.isEmpty && !(line.headD ' ' == '<')) then
      ("<br>").data ++ line
    else line) :: brGo line rest

/-- `result.filter(line => line.trim()).map((line, index, array) => ...)`. -/
def brStage (entries : List (List Char)) : List (List Char) :=
  match entries.filter (fun l => !(trimL l).isEmpty) with
  | [] => []
  | x :: xs => x :: brGo x xs

/-- The body of `markdownToHTML` after splitting into lines: loop, filter and
join, and the final paragraph wrap when no list markup was produced. -/
def mdCore (lines : List (List Char)) : List Char :=
  let joined := (brStage (mdLoop none [] lines)).flatten
  if !joined.isEmpty && !(jsIncludes joined OL_TAG) && !(jsIncludes joined UL_TAG) then
    ("<p>").data ++ joined ++ ("</p>").data
  else joined

/-- `markdownToHTML(text)` from the client renderer. -/
def markdownToHTML (t : String) : String :=
  if t = "" then "" else String.mk (mdCore (splitOnNl t.data))

theorem sliceLast_length (n : Nat) (l : List α) :
    (sliceLast n l).length = min n l.length := by
  simp [sliceLast]; omega

/-- Claim C3: `isRepeated(message, history)` is true iff the history holds at
least 3 user-role messages and the last 3 user-role messages each equal the
current message after lowercasing and trimming; with fewer than 3 prior user
turns it is false. -/
theorem isRepeated_iff (m : String) (h : List ChatMsg) :
    isRepeated m h = true ↔
      (3 ≤ (h.filter (fun x => x.role == "user")).length ∧
       ∀ x ∈ sliceLast 3 (h.filter (fun x => x.role == "user")),
         trimL (lowerL x.content.data) = trimL (lowerL m.data)) := by
  rw [isRepeated]
  split
  · rename_i hlt
    rw [sliceLast_length] at hlt
    simp only [Bool.false_eq_true, false_iff, not_and]
    intro h3
    omega
  · rename_i hge
    rw [sliceLast_length] at hge
    have h3 : 3 ≤ (h.filter (fun x => x.role == "user")).length := by omega
    simp [List.all_eq_true, h3]

/-- Claim C4, counterexample: with history `[user "pricing", user "aa",
user "bb", assistant "cc", assistant "dd", assistant "ee"]` and message "zz",
the last 3 user-role messages contain the keyword "pricing", yet
`detectConsultationIntent` is false because the code filters user messages out
of the last 3 entries of the history (all assistants here), not out of the
whole history. -/
theorem detectConsultationIntent_counterexample :
    detectConsultationIntent "zz"
        [⟨"user", "pricing"⟩, ⟨"user", "aa"⟩, ⟨"user", "bb"⟩,
         ⟨"assistant", "cc"⟩, ⟨"assistant", "dd"⟩, ⟨"assistant", "ee"⟩] = false
    ∧ detectClaimStated "zz"
        [⟨"user", "pricing"⟩, ⟨"user", "aa"⟩, ⟨"user", "bb"⟩,
         ⟨"assistant", "cc"⟩, ⟨"assistant", "dd"⟩, ⟨"assistant", "ee"⟩] = true := by
  constructor
  · decide
  · decide

/-- Claim C4 as amended: `detectConsultationIntent` is true iff the current
message, or some user-role message among the last 3 entries of the history,
contains (case-insensitively) a term of the consultation-keyword set. -/
theorem detectConsultationIntent_amended (m : String) (h : List ChatMsg) :
    detectConsultationIntent m h = true ↔
      (containsAnyKeyword CONSULTATION_KEYWORDS (lowerL m.data) = true ∨
       ∃ x ∈ sliceLast 3 h, x.role = "user" ∧
         containsAnyKeyword CONSULTATION_KEYWORDS (lowerL x.content.data) = true) := by
  rw [detectConsultationIntent]
  split
  · rename_i hkw
    simp [hkw]
  · rename_i hkw
    rw [Bool.not_eq_true] at hkw
    simp only [hkw, Bool.false_eq_true, false_or, List.any_eq_true,
      List.mem_filter, beq_iff_eq]
    constructor
    · rintro ⟨x, ⟨hx, hrole⟩, hc⟩
      exact ⟨x, hx, hrole, hc⟩
    · rintro ⟨x, hx, hrole, hc⟩
      exact ⟨x, ⟨hx, hrole⟩, hc⟩

theorem trimL_eq_nil_iff (l : List Char) :
    trimL l = [] ↔ ∀ c ∈ l, isWsChar c = true := by
  unfold trimL
  rw [List.reverse_eq_nil_iff, List.dropWhile_eq_nil_iff]
  constructor
  · intro hws c hc
    rcases List.mem_append.mp
      ((List.takeWhile_append_dropWhile (p := isWsChar) (l := l)) ▸ hc) with h1 | h1
    · exact List.mem_takeWhile_imp h1
    · exact hws c (List.mem_reverse.mpr h1)
  · intro hws c hc
    exact hws c ((List.dropWhile_sublist _).subset (List.mem_reverse.mp hc))

theorem parseOrd_of_blank {l : List Char} (hb : isBlankL l = true) :
    parseOrd l = none := by
  have hall : ∀ c ∈ l, isWsChar c = true := by
    rw [← trimL_eq_nil_iff]
    simpa [isBlankL] using hb
  have hdrop : l.dropWhile isWsChar = [] := List.dropWhile_eq_nil_iff.mpr hall
  simp [parseOrd, hdrop, dropBB]

theorem fixNum_fold_eq (ls : List (List Char)) : ∀ (n : Nat) (acc : List (List Char)),
    (ls.foldl fixNumStep (n, acc)).2 = acc ++ renumClaim n ls := by
  induction ls with
  | nil => intro n acc; simp [renumClaim]
  | cons line rest ih =>
    intro n acc
    by_cases hb : isBlankL line = true
    · have hp : parseOrd line = none := parseOrd_of_blank hb
      simp [fixNumStep, hp, hb, renumClaim, ih]
    · cases hp : parseOrd line with
      | some pc =>
        simp [fixNumStep, hp, hb, renumClaim, ih]
      | none =>
        simp [fixNumStep, hp, hb, renumClaim, ih]

/-- Claim C6: `fixNumberedLists` renumbers every line matching the
ordered-list-item pattern sequentially from 1 regardless of the original
numbers, a blank line resetting the counter, and in particular maps
`"5. a\n7. b\n\n3. c"` to `"1. a\n2. b\n\n1. c"`. -/
theorem fixNumberedLists_renumbers_from_one :
    fixNumberedLists "5. a\n7. b\n\n3. c" = "1. a\n2. b\n\n1. c"
    ∧ ∀ t : String,
        fixNumberedLists t = String.mk (joinNl (renumClaim 1 (splitOnNl t.data))) := by
  constructor
  · decide
  · intro t
    unfold fixNumberedLists
    rw [fixNum_fold_eq]
    simp

theorem limit_fold_eq (ls : List (List Char)) :
    ∀ (inL : Bool) (cnt : Nat) (acc : List (List Char)), (inL = false → cnt = 0) →
      (ls.foldl limitStep (inL, cnt, acc)).2.2 = acc ++ limitClaim cnt ls := by
  induction ls with
  | nil => intro inL cnt acc _; simp [limitClaim]
  | cons line rest ih =>
    intro inL cnt acc hinv
    rw [List.foldl_cons]
    by_cases hitem : isListItemLine line = true
    · cases inL with
      | false =>
        have h0 : cnt = 0 := hinv rfl
        subst h0
        have hstep : limitStep (false, 0, acc) line = (true, 1, acc ++ [line]) := by
          simp [limitStep, hitem]
        rw [hstep, ih true 1 (acc ++ [line]) (fun hc => Bool.noConfusion hc)]
        simp [limitClaim, hitem]
      | true =>
        by_cases h3 : cnt + 1 ≤ 3
        · have hstep : limitStep (true, cnt, acc) line = (true, cnt + 1, acc ++ [line]) := by
            simp [limitStep, hitem, h3]
          rw [hstep, ih true (cnt + 1) (acc ++ [line]) (fun hc => Bool.noConfusion hc)]
          simp [limitClaim, hitem, h3]
        · have hstep : limitStep (true, cnt, acc) line = (true, cnt + 1, acc) := by
            simp [limitStep, hitem, h3]
          rw [hstep, ih true (cnt + 1) acc (fun hc => Bool.noConfusion hc)]
          simp [limitClaim, hitem, h3]
    · by_cases hb : isBlankL line = true
      · cases inL with
        | false =>
          have h0 : cnt = 0 := hinv rfl
          subst h0
          have hstep : limitStep (false, 0, acc) line = (false, 0, acc ++ [line]) := by
            simp [limitStep, hitem, hb]
          rw [hstep, ih false 0 (acc ++ [line]) (fun _ => rfl)]
          simp [limitClaim, hitem, hb]
        | true =>
          have hstep : limitStep (true, cnt, acc) line = (false, 0, acc ++ [line]) := by
            simp [limitStep, hitem, hb]
          rw [hstep, ih false 0 (acc ++ [line]) (fun _ => rfl)]
          simp [limitClaim, hitem, hb]
      · have hstep : limitStep (inL, cnt, acc) line = (inL, cnt, acc ++ [line]) := by
          simp [limitStep, hitem, hb]
        rw [hstep, ih inL cnt (acc ++ [line]) hinv]
        simp [limitClaim, hitem, hb]

/-- Claim C5 as amended: `limitList` keeps at most the first 3 list-item lines
of each group, where groups are reset only by a blank line (a non-blank
non-list line passes through without resetting the count), and passes every
non-list line through unchanged in order. -/
theorem limitList_blank_delimited (t : String) :
    limitList t = String.mk (joinNl (limitClaim 0 (splitOnNl t.data))) := by
  unfold limitList
  rw [limit_fold_eq _ _ _ _ (fun _ => rfl)]
  simp

/-- Claim C5, counterexample: on `"1. a\n2. b\n3. c\nx\n4. d"` the non-list
line `"x"` does not delimit the run, so the code drops `"4. d"` (the counter
is already 3), while the claim's reading — runs delimited by a blank line or a
non-list line — keeps every line of this input. -/
theorem limitList_counterexample :
    limitList "1. a\n2. b\n3. c\nx\n4. d" = "1. a\n2. b\n3. c\nx"
    ∧ String.mk (joinNl (limitStated 0 (splitOnNl ("1. a\n2. b\n3. c\nx\n4. d").data)))
        = "1. a\n2. b\n3. c\nx\n4. d" := by
  constructor
  · decide
  · decide

theorem trimL_eq_rdrop (l : List Char) :
    trimL l = List.rdropWhile isWsChar (l.dropWhile isWsChar) := rfl

theorem trimL_head?_not {l : List Char} {c : Char}
    (h : (trimL l).head? = some c) : isWsChar c = false := by
  obtain ⟨t, ht⟩ := List.rdropWhile_prefix isWsChar (l.dropWhile isWsChar)
  rw [← trimL_eq_rdrop] at ht
  cases htl : trimL l with
  | nil => rw [htl] at h; simp at h
  | cons e es =>
    rw [htl] at h ht
    rw [List.head?_cons] at h
    have hec : e = c := Option.some.inj h
    subst hec
    have hd : l.dropWhile isWsChar = e :: (es ++ t) := by rw [← ht]; simp
    have hne : l.dropWhile isWsChar ≠ [] := by simp [hd]
    have h2 := List.head_dropWhile_not isWsChar l hne
    have h3 : (l.dropWhile isWsChar).head hne = e := by simp [hd]
    rw [h3] at h2
    exact h2

theorem trimL_getLast?_not {l : List Char} {c : Char}
    (h : (trimL l).getLast? = some c) : isWsChar c = false := by
  have hne : trimL l ≠ [] := by intro h0; rw [h0] at h; simp at h
  have h2 := List.rdropWhile_last_not isWsChar (l.dropWhile isWsChar)
    (trimL_eq_rdrop l ▸ hne)
  have h3 : (trimL l).getLast? = some ((trimL l).getLast hne) :=
    List.getLast?_eq_getLast _ hne
  rw [h] at h3
  obtain rfl : c = (trimL l).getLast hne := by injection h3
  exact Bool.eq_false_iff.mpr h2

theorem trimL_eq_self {l : List Char}
    (hh : ∀ c, l.head? = some c → isWsChar c = false)
    (hl : ∀ c, l.getLast? = some c → isWsChar c = false) : trimL l = l := by
  rw [trimL_eq_rdrop]
  have h1 : l.dropWhile isWsChar = l := by
    rw [List.dropWhile_eq_self_iff]
    intro h0
    cases l with
    | nil => exact absurd h0 (by simp)
    | cons c cs =>
      have := hh c rfl
      simp [List.get, this]
  rw [h1, List.rdropWhile_eq_self_iff]
  intro hnil
  have h3 := hl (l.getLast hnil) (List.getLast?_eq_getLast l hnil)
  simp [h3]

theorem trimL_idem (l : List Char) : trimL (trimL l) = trimL l := by
  cases htl : trimL l with
  | nil => rfl
  | cons c cs =>
    apply trimL_eq_self
    · intro d hd
      rw [List.head?_cons] at hd
      obtain rfl : c = d := by injection hd
      exact trimL_head?_not (l := l) (by rw [htl]; rfl)
    · intro d hd
      exact trimL_getLast?_not (l := l) (by rw [htl]; exact hd)

theorem mk_data (l : List Char) : (String.mk l).data = l := rfl

theorem isSub_append_right {s b : List Char} (a : List Char) (h : isSub s b = true) :
    isSub s (a ++ b) = true := by
  induction a with
  | nil => simpa using h
  | cons x xs ih => simp [isSub, ih]

theorem mentionsButton_concatCTA (base : List Char) :
    mentionsButton (base ++ '\n' :: '\n' :: CTA_SENTENCE.data) = true := by
  simp only [mentionsButton, List.any_eq_true]
  refine ⟨"button below", by decide, ?_⟩
  show isSub ("button below".data) (lowerL (base ++ '\n' :: '\n' :: CTA_SENTENCE.data)) = true
  rw [lowerL, List.map_append]
  exact isSub_append_right _ (by decide)

/-- Claim C10: `appendConsultationCTA` always returns a non-empty text that
mentions the button/consultation phrase set (case-insensitively), and it is
idempotent — a second application never appends a second call-to-action. -/
theorem appendConsultationCTA_idem (t : String) :
    appendConsultationCTA t ≠ ""
    ∧ mentionsButton (appendConsultationCTA t).data = true
    ∧ appendConsultationCTA (appendConsultationCTA t) = appendConsultationCTA t := by
  by_cases hb : (trimL t.data).isEmpty = true
  · have hout : appendConsultationCTA t = thanksCTA := by
      unfold appendConsultationCTA
      simp [hb]
    rw [hout]
    exact ⟨by decide, by decide, by decide⟩
  · have hbase : trimL t.data ≠ [] := by
      intro h0
      rw [h0] at hb
      simp at hb
    by_cases hm : mentionsButton (trimL t.data) = true
    · have hout : appendConsultationCTA t = String.mk (trimL t.data) := by
        unfold appendConsultationCTA
        simp [hb, hm]
      rw [hout]
      refine ⟨?_, ?_, ?_⟩
      · intro h0
        exact hbase (congrArg String.data h0)
      · exact hm
      · unfold appendConsultationCTA
        simp [mk_data, trimL_idem, hb, hm]
    · have hout : appendConsultationCTA t =
          String.mk (trimL t.data ++ '\n' :: '\n' :: CTA_SENTENCE.data) := by
        unfold appendConsultationCTA
        simp [hb, hm]
      rw [hout]
      have hmen : mentionsButton (trimL t.data ++ '\n' :: '\n' :: CTA_SENTENCE.data) = true :=
        mentionsButton_concatCTA (trimL t.data)
      have htrim : trimL (trimL t.data ++ '\n' :: '\n' :: CTA_SENTENCE.data)
          = trimL t.data ++ '\n' :: '\n' :: CTA_SENTENCE.data := by
        apply trimL_eq_self
        · intro c hc
          rw [List.head?_append_of_ne_nil _ hbase] at hc
          exact trimL_head?_not hc
        · intro c hc
          rw [List.getLast?_append_of_ne_nil _ (by simp)] at hc
          have hdot : ('\n' :: '\n' :: CTA_SENTENCE.data).getLast? = some '.' := by decide
          rw [hdot] at hc
          have : '.' = c := Option.some.inj hc
          rw [← this]
          decide
      refine ⟨?_, ?_, ?_⟩
      · intro h0
        have h1 := congrArg String.data h0
        rw [mk_data] at h1
        simp at h1
      · exact hmen
      · unfold appendConsultationCTA
        simp [mk_data, htrim, hmen]

theorem suffix_of_suffix_of_length_le {α : Type} {s₁ s₂ X : List α}
    (h1 : s₁ <:+ X) (h2 : s₂ <:+ X) (hl : s₁.length ≤ s₂.length) : s₁ <:+ s₂ := by
  obtain ⟨a, ha⟩ := h1
  obtain ⟨b, hb⟩ := h2
  have hd1 : s₁ = X.drop a.length := by rw [← ha, List.drop_left]
  have hd2 : s₂ = X.drop b.length := by rw [← hb, List.drop_left]
  have e1 : a.length + s₁.length = X.length := by rw [← ha]; simp
  have e2 : b.length + s₂.length = X.length := by rw [← hb]; simp
  rw [hd1, hd2]
  exact List.drop_suffix_drop_left X (by omega)

theorem sliceLast_suffix (n : Nat) (l : List α) : sliceLast n l <:+ l :=
  List.drop_suffix _ _

/-- Claim C7, counterexample: an 11-entry history whose second entry is the
only invalid one. Cap-then-filter keeps 9 entries, filter-then-cap keeps 10,
so the two orders do not yield the same result. -/
theorem validateConversationHistory_counterexample :
    validateConversationHistory
        [⟨"user", "g0"⟩, ⟨"bot", "x"⟩, ⟨"user", "g1"⟩, ⟨"user", "g2"⟩,
         ⟨"user", "g3"⟩, ⟨"user", "g4"⟩, ⟨"user", "g5"⟩, ⟨"user", "g6"⟩,
         ⟨"user", "g7"⟩, ⟨"user", "g8"⟩, ⟨"user", "g9"⟩]
      ≠ filterThenCap
        [⟨"user", "g0"⟩, ⟨"bot", "x"⟩, ⟨"user", "g1"⟩, ⟨"user", "g2"⟩,
         ⟨"user", "g3"⟩, ⟨"user", "g4"⟩, ⟨"user", "g5"⟩, ⟨"user", "g6"⟩,
         ⟨"user", "g7"⟩, ⟨"user", "g8"⟩, ⟨"user", "g9"⟩] := by
  decide

/-- Claim C7 as amended: the validator (cap to the last 10, then filter and
sanitize) always returns at most 10 entries and a suffix — the most recent
part — of what filter-then-cap returns, and the two orders coincide whenever
every one of the last 10 entries is valid. -/
theorem validateConversationHistory_cap_filter (h : List ChatMsg) :
    (validateConversationHistory h).length ≤ 10
    ∧ validateConversationHistory h <:+ filterThenCap h
    ∧ ((∀ x ∈ sliceLast 10 h, validMsg x = true) →
        validateConversationHistory h = filterThenCap h) := by
  refine ⟨?_, ?_, ?_⟩
  · have h1 : ((sliceLast 10 h).filter validMsg).length ≤ (sliceLast 10 h).length :=
      List.length_filter_le _ _
    have h2 := sliceLast_length 10 h
    simp only [validateConversationHistory, List.length_map]
    omega
  · have hsuf : validateConversationHistory h <:+ (h.filter validMsg).map sanitizeEntry :=
      List.IsSuffix.map _ (List.IsSuffix.filter _ (sliceLast_suffix 10 h))
    have hlen1 : (validateConversationHistory h).length ≤ 10 := by
      have h1 : ((sliceLast 10 h).filter validMsg).length ≤ (sliceLast 10 h).length :=
        List.length_filter_le _ _
      have h2 := sliceLast_length 10 h
      simp only [validateConversationHistory, List.length_map]
      omega
    apply suffix_of_suffix_of_length_le hsuf (sliceLast_suffix 10 _)
    rw [sliceLast_length]
    have := hsuf.length_le
    omega
  · intro hv
    have hfilter : (sliceLast 10 h).filter validMsg = sliceLast 10 h :=
      List.filter_eq_self.mpr hv
    rw [validateConversationHistory, filterThenCap, hfilter]
    by_cases hlen : h.length ≤ 10
    · have hk : h.length - 10 = 0 := by omega
      have hall : sliceLast 10 h = h := by simp [sliceLast, hk]
      rw [hall] at hv ⊢
      have hfe : h.filter validMsg = h := List.filter_eq_self.mpr hv
      rw [hfe]
      simp only [sliceLast, List.length_map]
      rw [hk, List.drop_zero]
    · have hsplit : h.take (h.length - 10) ++ h.drop (h.length - 10) = h :=
        List.take_append_drop _ h
      have hdropf : (h.drop (h.length - 10)).filter validMsg = h.drop (h.length - 10) := by
        have : sliceLast 10 h = h.drop (h.length - 10) := rfl
        rw [← this, hfilter]
      conv_rhs => rw [← hsplit]
      rw [List.filter_append, hdropf, List.map_append]
      have hlenB : ((h.drop (h.length - 10)).map sanitizeEntry).length = 10 := by
        simp
        omega
      simp only [sliceLast]
      rw [List.drop_left']
      simp only [List.length_append, hlenB]
      omega

/-- Witness for C7's equality branch: a single valid entry makes the two
orders coincide. -/
theorem validateConversationHistory_cap_filter_witness :
    validateConversationHistory [⟨"user", "a"⟩] = filterThenCap [⟨"user", "a"⟩] :=
  (validateConversationHistory_cap_filter [⟨"user", "a"⟩]).2.2 (by decide)

/-- Claim C1: the gating precedence of `POST /api/chat` — a repeated question
short-circuits first with the fixed refusal and no provider call; otherwise,
if there is no consultation intent and the message is off-topic, the fixed
redirect is returned with no provider call; otherwise the request proceeds to
the completion call and the computed `consultationIntent` is carried into the
response. -/
theorem handleChat_gating (rc fb : String → String) (completion m : String)
    (h : List ChatMsg) :
    (isRepeated m h = true →
      handleChat rc fb completion m h =
        ({ response := REPEATED_TEXT, consultationIntent := false }, false))
    ∧ (isRepeated m h = false → detectConsultationIntent m h = false →
        isOffTopic m h = true →
        handleChat rc fb completion m h =
          ({ response := OFFTOPIC_TEXT, consultationIntent := false }, false))
    ∧ (isRepeated m h = false →
        (detectConsultationIntent m h = true ∨ isOffTopic m h = false) →
        (handleChat rc fb completion m h).2 = true ∧
        (handleChat rc fb completion m h).1.consultationIntent
          = detectConsultationIntent m h) := by
  refine ⟨?_, ?_, ?_⟩
  · intro hrep
    simp [handleChat, hrep]
  · intro hrep hci hoff
    simp [handleChat, hrep, hci, hoff]
  · intro hrep hor
    rcases hor with hci | hoff
    · simp [handleChat, hrep, hci]
    · cases hci : detectConsultationIntent m h <;>
        simp [handleChat, hrep, hci, hoff]

/-- Witness for C1: the three gating branches at concrete inputs — a question
repeated three times, an off-topic question, and a greeting that proceeds. -/
theorem handleChat_gating_witness :
    (handleChat id id "ok" "hi" [⟨"user", "hi"⟩, ⟨"user", "hi"⟩, ⟨"user", "hi"⟩] =
      ({ response := REPEATED_TEXT, consultationIntent := false }, false))
    ∧ (handleChat id id "ok" "zzz" [] =
        ({ response := OFFTOPIC_TEXT, consultationIntent := false }, false))
    ∧ ((handleChat id id "ok" "hello" []).2 = true ∧
        (handleChat id id "ok" "hello" []).1.consultationIntent
          = detectConsultationIntent "hello" []) :=
  ⟨(handleChat_gating id id "ok" "hi"
      [⟨"user", "hi"⟩, ⟨"user", "hi"⟩, ⟨"user", "hi"⟩]).1 (by decide),
   (handleChat_gating id id "ok" "zzz" []).2.1 (by decide) (by decide) (by decide),
   (handleChat_gating id id "ok" "hello" []).2.2 (by decide) (Or.inr (by decide))⟩

/-- Claim C2: the handler's catch block sends the generic text only when the
resulting status is 500. A provider error that carries a 5xx status other
than 500 — here 503 with message "upstream provider error detail" — has its
raw `error.message` serialized into the response body, contradicting the
requirement that raw provider error text never reach the client. -/
theorem catchHandler_leaks_provider_message :
    catchHandler none (some "connection reset") =
      (500, "Request failed", "An error occurred. Please try again later.")
    ∧ catchHandler (some 503) (some "upstream provider error detail") =
        (503, "Request failed", "upstream provider error detail") :=
  ⟨rfl, rfl⟩

/-- Claim C8: a saved conversation history loads back identically while the
save is strictly less than 30 days old, and loading at age 30 days or more
yields an empty history with both stored keys cleared. -/
theorem loadHistory_roundtrip (st : StoreState) (h : List ChatMsg)
    (tSave tLoad : Nat) :
    ((tLoad - tSave) / msPerDay < 30 →
      loadHistory (saveHistory st h tSave) tLoad = (saveHistory st h tSave, h))
    ∧ (30 ≤ (tLoad - tSave) / msPerDay →
      loadHistory (saveHistory st h tSave) tLoad =
        ({ histVal := none, tsVal := none }, [])) := by
  constructor
  · intro hfresh
    simp [loadHistory, saveHistory, hfresh]
  · intro hstale
    have : ¬ (tLoad - tSave) / msPerDay < 30 := by omega
    simp [loadHistory, saveHistory, clearHistory, this]

/-- Witness for C8: a one-message history saved at time 0 survives a reload
one second later and is dropped at exactly 30 days. -/
theorem loadHistory_roundtrip_witness :
    (loadHistory (saveHistory ⟨none, none⟩ [⟨"user", "hi"⟩] 0) 1000 =
      (saveHistory ⟨none, none⟩ [⟨"user", "hi"⟩] 0, [⟨"user", "hi"⟩]))
    ∧ loadHistory (saveHistory ⟨none, none⟩ [⟨"user", "hi"⟩] 0) 2592000000 =
        ({ histVal := none, tsVal := none }, []) :=
  ⟨(loadHistory_roundtrip ⟨none, none⟩ [⟨"user", "hi"⟩] 0 1000).1 (by decide),
   (loadHistory_roundtrip ⟨none, none⟩ [⟨"user", "hi"⟩] 0 2592000000).2 (by decide)⟩

theorem SafeL_append {a b : List Char} (ha : SafeL a) (hb : SafeL b) :
    SafeL (a ++ b) := by
  induction ha with
  | nil => simpa using hb
  | tok ht _ ih => rw [List.append_assoc]; exact SafeL.tok ht ih
  | chr h1 h2 h3 _ ih => rw [List.cons_append]; exact SafeL.chr h1 h2 h3 ih

theorem SafeL_token {t : List Char} (ht : t ∈ SAFE_TOKENS) : SafeL t := by
  have h := SafeL.tok ht SafeL.nil
  simpa using h

theorem SafeL_escapeHtml (l : List Char) : SafeL (escapeHtml l) := by
  induction l with
  | nil => simpa [escapeHtml] using SafeL.nil
  | cons c cs ih =>
    have hstep : escapeHtml (c :: cs) = escChar c ++ escapeHtml cs := by
      simp [escapeHtml]
    rw [hstep]
    by_cases h1 : c = '&'
    · subst h1; exact SafeL.tok (by decide) ih
    · by_cases h2 : c = '<'
      · subst h2; exact SafeL.tok (by decide) ih
      · by_cases h3 : c = '>'
        · subst h3; exact SafeL.tok (by decide) ih
        · by_cases h4 : c = '\u00A0'
          · subst h4; exact SafeL.tok (by decide) ih
          · have he : escChar c = [c] := by simp [escChar, h1, h2, h3, h4]
            rw [he, List.singleton_append]
            exact SafeL.chr h1 h2 h3 ih

theorem findBB_cons_ne {c : Char} {l : List Char} (hc : c ≠ '*') :
    findBB (c :: l) = (findBB l).map (fun pq => (c :: pq.1, pq.2)) := by
  cases l with
  | nil => rfl
  | cons d r => simp [findBB, hc]

theorem findBB_token_append {t l : List Char} (hstar : ∀ c ∈ t, c ≠ '*') :
    findBB (t ++ l) = (findBB l).map (fun pq => (t ++ pq.1, pq.2)) := by
  induction t with
  | nil => simp
  | cons x xs ih =>
    rw [List.cons_append, findBB_cons_ne (hstar x (by simp)),
      ih (fun c hc => hstar c (by simp [hc]))]
    cases findBB l with
    | none => rfl
    | some pq => rfl

theorem no_star_in_tokens : ∀ t ∈ SAFE_TOKENS, ∀ c ∈ t, c ≠ '*' := by decide

theorem findBB_safe {l p q : List Char} (hl : SafeL l)
    (h : findBB l = some (p, q)) : SafeL p ∧ SafeL q := by
  induction hl generalizing p q with
  | nil => exact Option.noConfusion h
  | @tok t rest ht hr ih =>
    rw [findBB_token_append (no_star_in_tokens t ht)] at h
    cases hf : findBB rest with
    | none => rw [hf] at h; exact Option.noConfusion h
    | some pq =>
      rw [hf] at h
      cases pq with
      | mk p' q' =>
        simp at h
        obtain ⟨hp, hq⟩ := h
        obtain ⟨hs1, hs2⟩ := ih hf
        subst hp; subst hq
        exact ⟨SafeL.tok ht hs1, hs2⟩
  | @chr c rest h1 h2 h3 hr ih =>
    by_cases hc : c = '*'
    · subst hc
      cases hr with
      | nil => exact Option.noConfusion h
      | @tok t rest' ht' hr' =>
        have hne : t ≠ [] := by
          intro h0
          revert ht'
          rw [h0]
          decide
        obtain ⟨x, xs, ht2⟩ : ∃ x xs, t = x :: xs := by
          cases t with
          | nil => exact absurd rfl hne
          | cons a b => exact ⟨a, b, rfl⟩
        have hx : x ≠ '*' := no_star_in_tokens t ht' x (by rw [ht2]; simp)
        subst ht2
        rw [List.cons_append] at h
        have heq : findBB ('*' :: x :: (xs ++ rest'))
            = (findBB (x :: (xs ++ rest'))).map (fun pq => ('*' :: pq.1, pq.2)) := by
          rw [findBB]
          simp [hx]
        rw [heq] at h
        cases hf : findBB (x :: (xs ++ rest')) with
        | none => rw [hf] at h; exact Option.noConfusion h
        | some pq =>
          rw [hf] at h
          cases pq with
          | mk p' q' =>
            simp at h
            obtain ⟨hp, hq⟩ := h
            obtain ⟨hs1, hs2⟩ := ih (by rw [List.cons_append]; exact hf)
            subst hp; subst hq
            exact ⟨SafeL.chr (by decide) (by decide) (by decide) hs1, hs2⟩
      | @chr c' rest'' h1' h2' h3' hr'' =>
        by_cases hc' : c' = '*'
        · subst hc'
          have heq : findBB ('*' :: '*' :: rest'') = some ([], rest'') := rfl
          rw [heq] at h
          simp at h
          obtain ⟨hp, hq⟩ := h
          subst hp; subst hq
          exact ⟨SafeL.nil, hr''⟩
        · have heq : findBB ('*' :: c' :: rest'')
              = (findBB (c' :: rest'')).map (fun pq => ('*' :: pq.1, pq.2)) := by
            rw [findBB]
            simp [hc']
          rw [heq] at h
          cases hf : findBB (c' :: rest'') with
          | none => rw [hf] at h; exact Option.noConfusion h
          | some pq =>
            rw [hf] at h
            cases pq with
            | mk p' q' =>
              simp at h
              obtain ⟨hp, hq⟩ := h
              obtain ⟨hs1, hs2⟩ := ih hf
              subst hp; subst hq
              exact ⟨SafeL.chr (by decide) (by decide) (by decide) hs1, hs2⟩
    · rw [findBB_cons_ne hc] at h
      cases hf : findBB rest with
      | none => rw [hf] at h; exact Option.noConfusion h
      | some pq =>
        rw [hf] at h
        cases pq with
        | mk p' q' =>
          simp at h
          obtain ⟨hp, hq⟩ := h
          obtain ⟨hs1, hs2⟩ := ih hf
          subst hp; subst hq
          exact ⟨SafeL.chr h1 h2 h3 hs1, hs2⟩

theorem boldGo_succ_none {n : Nat} {l : List Char} (hf : findBB l = none) :
    boldGo (n + 1) l = l := by
  rw [boldGo, hf]

theorem boldGo_succ_stuck {n : Nat} {l pre rest : List Char}
    (hf : findBB l = some (pre, rest)) (hg : findBB rest = none) :
    boldGo (n + 1) l = l := by
  rw [boldGo, hf]
  dsimp only
  rw [hg]

theorem boldGo_succ_pair {n : Nat} {l pre rest mid tail : List Char}
    (hf : findBB l = some (pre, rest)) (hg : findBB rest = some (mid, tail)) :
    boldGo (n + 1) l = pre ++ strongOpen ++ mid ++ strongClose ++ boldGo n tail := by
  rw [boldGo, hf]
  dsimp only
  rw [hg]

theorem boldGo_safe : ∀ (fuel : Nat) (l : List Char), SafeL l → SafeL (boldGo fuel l) := by
  intro fuel
  induction fuel with
  | zero => intro l hl; simpa [boldGo] using hl
  | succ n ih =>
    intro l hl
    cases hf : findBB l with
    | none => rw [boldGo_succ_none hf]; exact hl
    | some pq =>
      cases pq with
      | mk pre rest =>
        cases hg : findBB rest with
        | none => rw [boldGo_succ_stuck hf hg]; exact hl
        | some mt =>
          cases mt with
          | mk mid tail =>
            rw [boldGo_succ_pair hf hg]
            obtain ⟨hpre, hrest⟩ := findBB_safe hl hf
            obtain ⟨hmid, htail⟩ := findBB_safe hrest hg
            exact SafeL_append (SafeL_append (SafeL_append
              (SafeL_append hpre (SafeL_token (t := strongOpen) (by decide))) hmid)
              (SafeL_token (t := strongClose) (by decide))) (ih tail htail)

theorem boldRepl_safe {l : List Char} (hl : SafeL l) : SafeL (boldRepl l) :=
  boldGo_safe l.length l hl

theorem mdLoop_nil (cur : Option Bool) (items : List (List Char)) :
    mdLoop cur items [] = (flushList cur items).1 := rfl

theorem mdLoop_num {line content : List Char} {rest : List (List Char)}
    (cur : Option Bool) (items : List (List Char))
    (hn : mdNumMatch (trimL line) = some content) :
    mdLoop cur items (line :: rest) =
      if cur = some true then mdLoop (some true) (items ++ [liWrap content]) rest
      else (flushList cur items).1 ++
        mdLoop (some true) ((flushList cur items).2 ++ [liWrap content]) rest := by
  rw [mdLoop, hn]

theorem mdLoop_bul {line content : List Char} {rest : List (List Char)}
    (cur : Option Bool) (items : List (List Char))
    (hn : mdNumMatch (trimL line) = none) (hb : mdBulMatch (trimL line) = some content) :
    mdLoop cur items (line :: rest) =
      if cur = some false then mdLoop (some false) (items ++ [liWrap content]) rest
      else (flushList cur items).1 ++
        mdLoop (some false) ((flushList cur items).2 ++ [liWrap content]) rest := by
  rw [mdLoop, hn]
  dsimp only
  rw [hb]

theorem mdLoop_plain {line : List Char} {rest : List (List Char)}
    (cur : Option Bool) (items : List (List Char))
    (hn : mdNumMatch (trimL line) = none) (hb : mdBulMatch (trimL line) = none) :
    mdLoop cur items (line :: rest) =
      (flushList cur items).1 ++
        (if (trimL line).isEmpty then [] else [boldRepl (escapeHtml (trimL line))]) ++
        mdLoop none (flushList cur items).2 rest := by
  rw [mdLoop, hn]
  dsimp only
  rw [hb]

theorem SafeL_flatten {L : List (List Char)} (h : ∀ e ∈ L, SafeL e) :
    SafeL L.flatten := by
  induction L with
  | nil => simpa using SafeL.nil
  | cons x xs ih =>
    rw [List.flatten_cons]
    exact SafeL_append (h x (by simp)) (ih (fun e he => h e (by simp [he])))

theorem SafeL_liWrap (content : List Char) : SafeL (liWrap content) := by
  unfold liWrap
  exact SafeL_append
    (SafeL_append (SafeL_token (t := ("<li>").data) (by decide))
      (boldRepl_safe (SafeL_escapeHtml content)))
    (SafeL_token (t := ("</li>").data) (by decide))

theorem SafeL_listWrap (b : Bool) {items : List (List Char)}
    (h : ∀ e ∈ items, SafeL e) : SafeL (listWrap b items) := by
  unfold listWrap
  cases b
  · exact SafeL_append
      (SafeL_append (SafeL_token (t := ("<ul>").data) (by decide)) (SafeL_flatten h))
      (SafeL_token (t := ("</ul>").data) (by decide))
  · exact SafeL_append
      (SafeL_append (SafeL_token (t := ("<ol>").data) (by decide)) (SafeL_flatten h))
      (SafeL_token (t := ("</ol>").data) (by decide))

theorem flushList_safe (cur : Option Bool) {items : List (List Char)}
    (h : ∀ e ∈ items, SafeL e) :
    (∀ e ∈ (flushList cur items).1, SafeL e) ∧
    (∀ e ∈ (flushList cur items).2, SafeL e) := by
  cases cur with
  | none => exact ⟨by simp [flushList], h⟩
  | some b =>
    by_cases hi : items.isEmpty
    · refine ⟨by simp [flushList, hi], ?_⟩
      simpa [flushList, hi] using h
    · refine ⟨?_, by simp [flushList, hi]⟩
      intro e he
      simp [flushList, hi] at he
      subst he
      exact SafeL_listWrap b h

theorem mdLoop_safe : ∀ (lines : List (List Char)) (cur : Option Bool)
    (items : List (List Char)), (∀ e ∈ items, SafeL e) →
    ∀ e ∈ mdLoop cur items lines, SafeL e := by
  intro lines
  induction lines with
  | nil =>
    intro cur items h e he
    rw [mdLoop_nil] at he
    exact (flushList_safe cur h).1 e he
  | cons line rest ih =>
    intro cur items h e he
    have hitems : ∀ (content : List Char),
        ∀ x ∈ (flushList cur items).2 ++ [liWrap content], SafeL x := by
      intro content x hx
      rcases List.mem_append.mp hx with h2 | h2
      · exact (flushList_safe cur h).2 x h2
      · rw [List.mem_singleton] at h2
        rw [h2]
        exact SafeL_liWrap content
    have hitems2 : ∀ (content : List Char),
        ∀ x ∈ items ++ [liWrap content], SafeL x := by
      intro content x hx
      rcases List.mem_append.mp hx with h2 | h2
      · exact h x h2
      · rw [List.mem_singleton] at h2
        rw [h2]
        exact SafeL_liWrap content
    cases hn : mdNumMatch (trimL line) with
    | some content =>
      rw [mdLoop_num cur items hn] at he
      by_cases hc : cur = some true
      · rw [if_pos hc] at he
        exact ih (some true) _ (hitems2 content) e he
      · rw [if_neg hc] at he
        rcases List.mem_append.mp he with h1 | h1
        · exact (flushList_safe cur h).1 e h1
        · exact ih (some true) _ (hitems content) e h1
    | none =>
      cases hb : mdBulMatch (trimL line) with
      | some content =>
        rw [mdLoop_bul cur items hn hb] at he
        by_cases hc : cur = some false
        · rw [if_pos hc] at he
          exact ih (some false) _ (hitems2 content) e he
        · rw [if_neg hc] at he
          rcases List.mem_append.mp he with h1 | h1
          · exact (flushList_safe cur h).1 e h1
          · exact ih (some false) _ (hitems content) e h1
      | none =>
        rw [mdLoop_plain cur items hn hb] at he
        rcases List.mem_append.mp he with h1 | h1
        · rcases List.mem_append.mp h1 with h2 | h2
          · exact (flushList_safe cur h).1 e h2
          · by_cases his : (trimL line).isEmpty
            · rw [if_pos his] at h2
              simp at h2
            · rw [if_neg his] at h2
              rw [List.mem_singleton] at h2
              rw [h2]
              exact boldRepl_safe (SafeL_escapeHtml _)
        · exact ih none _ (flushList_safe cur h).2 e h1

theorem brGo_safe : ∀ (l : List (List Char)) (prev : List Char),
    (∀ e ∈ l, SafeL e) → ∀ e ∈ brGo prev l, SafeL e := by
  intro l
  induction l with
  | nil => intro prev _ e he; simp [brGo] at he
  | cons line rest ih =>
    intro prev h e he
    rw [brGo] at he
    rcases List.mem_cons.mp he with h1 | h1
    · rw [h1]
      split
      · exact SafeL_append (SafeL_token (t := ("<br>").data) (by decide))
          (h line (by simp))
      · exact h line (by simp)
    · exact ih line (fun x hx => h x (by simp [hx])) e h1

theorem brStage_safe {entries : List (List Char)} (h : ∀ e ∈ entries, SafeL e) :
    ∀ e ∈ brStage entries, SafeL e := by
  have hf : ∀ e ∈ entries.filter (fun l => !(trimL l).isEmpty), SafeL e :=
    fun e he => h e (List.mem_of_mem_filter he)
  rw [brStage]
  cases hsplit : entries.filter (fun l => !(trimL l).isEmpty) with
  | nil => simp
  | cons x xs =>
    intro e he
    rcases List.mem_cons.mp he with h1 | h1
    · rw [h1]
      exact hf x (by rw [hsplit]; simp)
    · exact brGo_safe xs x (fun y hy => hf y (by rw [hsplit]; simp [hy])) e h1

/-- Claim C9: `markdownToHTML` escapes all raw text before reintroducing
markup — its whole output is a concatenation of renderer-introduced tags
(`ol`, `ul`, `li`, `strong`, `p`, `br`), escape entities, and characters that
are none of `&`, `<`, `>`. Every `&`, `<` or `>` originating from the input
therefore appears only in escaped form, and the only unescaped tags are the
renderer's own. -/
theorem markdownToHTML_safe (t : String) : SafeL (markdownToHTML t).data := by
  unfold markdownToHTML
  by_cases ht : t = ""
  · rw [if_pos ht]
    exact SafeL.nil
  · rw [if_neg ht, mk_data, mdCore]
    have hloop : ∀ e ∈ mdLoop none [] (splitOnNl t.data), SafeL e :=
      mdLoop_safe (splitOnNl t.data) none [] (by simp)
    have hjoin : SafeL (brStage (mdLoop none [] (splitOnNl t.data))).flatten :=
      SafeL_flatten (brStage_safe hloop)
    split
    · exact SafeL_append
        (SafeL_append (SafeL_token (t := ("<p>").data) (by decide)) hjoin)
        (SafeL_token (t := ("</p>").data) (by decide))
    · exact hjoin
/-- A successful `findBB` split decomposes the input around one `**`. -/
theorem findBB_eq : ∀ {l p q : List Char}, findBB l = some (p, q) →
    l = p ++ '*' :: '*' :: q := by
  intro l
  induction l with
  | nil => intro p q h; exact Option.noConfusion h
  | cons c rest ih =>
    intro p q h
    cases rest with
    | nil => exact Option.noConfusion h
    | cons d r =>
      by_cases hcd : c = '*' ∧ d = '*'
      · have heq : findBB (c :: d :: r) = some ([], r) := by
          rw [findBB, if_pos hcd]
        rw [heq] at h
        simp at h
        obtain ⟨hp, hq⟩ := h
        subst hp; subst hq
        rw [hcd.1, hcd.2]
        rfl
      · have heq : findBB (c :: d :: r)
            = (findBB (d :: r)).map (fun pq => (c :: pq.1, pq.2)) := by
          rw [findBB, if_neg hcd]
        rw [heq] at h
        cases hf : findBB (d :: r) with
        | none => rw [hf] at h; exact Option.noConfusion h
        | some pq =>
          rw [hf] at h
          cases pq with
          | mk p' q' =>
            simp at h
            obtain ⟨hp, hq⟩ := h
            subst hp; subst hq
            rw [List.cons_append, ← ih hf]

/-- The fuel of `boldGo` is irrelevant from `l.length` upward: every
replacement consumes at least four characters, so `boldRepl` computes the
full unbounded bold rewrite. -/
theorem boldGo_fuel_irrel : ∀ (fuel : Nat) (l : List Char), l.length ≤ fuel →
    boldGo fuel l = boldGo (fuel + 1) l := by
  intro fuel
  induction fuel with
  | zero =>
    intro l hl
    have : l = [] := List.length_eq_zero.mp (Nat.le_zero.mp hl)
    subst this
    rfl
  | succ n ih =>
    intro l hl
    cases hf : findBB l with
    | none => rw [boldGo_succ_none hf, boldGo_succ_none hf]
    | some pq =>
      cases pq with
      | mk pre rest =>
        cases hg : findBB rest with
        | none => rw [boldGo_succ_stuck hf hg, boldGo_succ_stuck hf hg]
        | some mt =>
          cases mt with
          | mk mid tail =>
            rw [boldGo_succ_pair hf hg, boldGo_succ_pair hf hg]
            have hlen : tail.length + 4 ≤ l.length := by
              have h1 := findBB_eq hf
              have h2 := findBB_eq hg
              subst h1; subst h2
              simp [List.length_append]
              omega
            rw [ih tail (by omega)]
